import Mathlib

/-!
Shallow embedding of the conversational build-assembly core of the
PDS-Montagem-de-pc repository, together with proofs about the claims of its
specification.

Embedded source functions (names kept where Lean allows):
- services/geminiService.ts : parseJsonFromGeminiResponse, preFilterComponents,
  getLiveBuildResponse (post-oracle processing, validation, budget
  normalization, sub-record re-initialization, error classification),
- components/build/ChatbotAnamnesis.tsx (both repository variants) :
  callLiveBuilder (preference replacement, build projection, total price).

JavaScript values flowing out of JSON.parse are modelled by the inductive
type Json below; JavaScript numbers are modelled as exact rationals;
exceptions are modelled as Option/Except in the usual way; JSON.parse itself
is modelled by an executable recursive-descent parser over the JSON grammar.
-/

set_option maxRecDepth 10000

/-! ## Character-level helpers (JS string primitives) -/

/-- The character code of a left curly bracket (written via its code to keep
string scanners happy). -/
def lbraceChar : Char := Char.ofNat 123

/-- The character code of a right curly bracket. -/
def rbraceChar : Char := Char.ofNat 125

/-- Whitespace as matched by the JavaScript regex class backslash-s and by
String.prototype.trim (ASCII part plus no-break space; the exotic Unicode
space characters never occur in the strings handled here). -/
def isJsWhitespace (c : Char) : Bool :=
  c == ' ' || c == '\t' || c == '\n' || c == '\r' ||
  c == Char.ofNat 11 || c == Char.ofNat 12 || c == Char.ofNat 160

/-- Whitespace accepted between tokens by the JSON grammar (RFC 8259). -/
def isJsonWs (c : Char) : Bool :=
  c == ' ' || c == '\t' || c == '\n' || c == '\r'

/-- Drop leading JSON whitespace. -/
def skipJsonWs (cs : List Char) : List Char := cs.dropWhile isJsonWs

/-- Model of String.prototype.trim on a character list. -/
def trimChars (cs : List Char) : List Char :=
  ((cs.dropWhile isJsWhitespace).reverse.dropWhile isJsWhitespace).reverse

/-- Does the first list start with the second one? -/
def startsWithChars : List Char → List Char → Bool
  | _, [] => true
  | [], _ :: _ => false
  | h :: t, s :: st => h == s && startsWithChars t st

/-- Substring containment, the model of String.prototype.includes. -/
def containsChars : List Char → List Char → Bool
  | [], sub => sub.isEmpty
  | h :: t, sub => startsWithChars (h :: t) sub || containsChars t sub

/-! ## The Json value model (result of JSON.parse) -/

/-- A JavaScript value produced by JSON.parse.  Numbers are modelled as exact
rationals. -/
inductive Json where
  | null : Json
  | bool (b : Bool) : Json
  | num (q : ℚ) : Json
  | str (s : String) : Json
  | arr (elems : List Json) : Json
  | obj (fields : List (String × Json)) : Json
  deriving Repr

/-- Assignment of a property on a plain object: overwrite in place when the
key exists (JavaScript keeps the original insertion position), append
otherwise. -/
def objSetValue (kvs : List (String × Json)) (k : String) (v : Json) :
    List (String × Json) :=
  if kvs.any (fun p => p.1 == k) then
    kvs.map (fun p => if p.1 == k then (k, v) else p)
  else kvs ++ [(k, v)]

/-- Build the property list of an object literal from parsed key/value pairs,
collapsing duplicate keys the way JavaScript object construction does (last
value wins, first position kept). -/
def collapsePairs (l : List (String × Json)) : List (String × Json) :=
  l.foldl (fun acc p => objSetValue acc p.1 p.2) []

/-! ## JSON.parse model: recursive-descent parser over the JSON grammar -/

/-- Value of a hexadecimal digit. -/
def hexVal (c : Char) : Option Nat :=
  if c.isDigit then some (c.toNat - 48)
  else if 'a' ≤ c && c ≤ 'f' then some (c.toNat - 87)
  else if 'A' ≤ c && c ≤ 'F' then some (c.toNat - 55)
  else none

/-- The character denoted by a single-character JSON escape sequence. -/
def escChar (e : Char) : Option Char :=
  if e == '"' then some '"'
  else if e == '\\' then some '\\'
  else if e == '/' then some '/'
  else if e == 'b' then some (Char.ofNat 8)
  else if e == 'f' then some (Char.ofNat 12)
  else if e == 'n' then some '\n'
  else if e == 'r' then some '\r'
  else if e == 't' then some '\t'
  else none

/-- Parse the body of a JSON string literal (after the opening quote); returns
the decoded characters and the input following the closing quote.  Raw control
characters are rejected, as JSON.parse does. -/
def parseStringBody : List Char → Option (List Char × List Char)
  | [] => none
  | c :: rest =>
    if c == '"' then some ([], rest)
    else if c == '\\' then
      match rest with
      | [] => none
      | e :: rest2 =>
        if e == 'u' then
          match rest2 with
          | h1 :: h2 :: h3 :: h4 :: rest3 =>
            match hexVal h1, hexVal h2, hexVal h3, hexVal h4 with
            | some a, some b, some c2, some d =>
              (parseStringBody rest3).map
                (fun p => (Char.ofNat (((a * 16 + b) * 16 + c2) * 16 + d) :: p.1, p.2))
            | _, _, _, _ => none
          | _ => none
        else
          match escChar e with
          | some ec => (parseStringBody rest2).map (fun p => (ec :: p.1, p.2))
          | none => none
    else if c.toNat < 32 then none
    else (parseStringBody rest).map (fun p => (c :: p.1, p.2))

/-- Numeric value of a list of decimal digits. -/
def digitsVal (ds : List Char) : ℕ :=
  ds.foldl (fun a c => 10 * a + (c.toNat - 48)) 0

/-- Parse a JSON number token starting at the head of the input. -/
def parseJsonNumber (cs : List Char) : Option (ℚ × List Char) :=
  let sign : ℚ := if cs.head? == some '-' then -1 else 1
  let cs1 := if cs.head? == some '-' then cs.tail else cs
  let intDigits := cs1.takeWhile (fun c => c.isDigit)
  if intDigits.isEmpty then none
  else if intDigits.head? == some '0' && intDigits.length > 1 then none
  else
    let rest1 := cs1.dropWhile (fun c => c.isDigit)
    let hasFrac := rest1.head? == some '.'
    let fracDigits := if hasFrac then rest1.tail.takeWhile (fun c => c.isDigit) else []
    if hasFrac && fracDigits.isEmpty then none
    else
      let rest2 := if hasFrac then rest1.tail.dropWhile (fun c => c.isDigit) else rest1
      let hasExp := rest2.head? == some 'e' || rest2.head? == some 'E'
      if hasExp then
        let rest3 := rest2.tail
        let expNeg := rest3.head? == some '-'
        let rest4 := if rest3.head? == some '-' || rest3.head? == some '+' then rest3.tail else rest3
        let expDigits := rest4.takeWhile (fun c => c.isDigit)
        if expDigits.isEmpty then none
        else
          let rest5 := rest4.dropWhile (fun c => c.isDigit)
          let expVal : ℤ := if expNeg then -(digitsVal expDigits : ℤ) else (digitsVal expDigits : ℤ)
          let mantissa : ℚ :=
            (digitsVal intDigits : ℚ) + (digitsVal fracDigits : ℚ) / (10 : ℚ) ^ fracDigits.length
          some (sign * mantissa * (10 : ℚ) ^ expVal, rest5)
      else
        let mantissa : ℚ :=
          (digitsVal intDigits : ℚ) + (digitsVal fracDigits : ℚ) / (10 : ℚ) ^ fracDigits.length
        some (sign * mantissa, rest2)

mutual

/-- Parse one JSON value (fuel-indexed to make termination evident; the entry
point supplies more than enough fuel for any input). -/
def parseJsonValue : Nat → List Char → Option (Json × List Char)
  | 0, _ => none
  | f + 1, cs0 =>
    let cs := skipJsonWs cs0
    match cs with
    | [] => none
    | c :: rest =>
      if c == 'n' then
        if startsWithChars cs ['n', 'u', 'l', 'l'] then some (.null, cs.drop 4) else none
      else if c == 't' then
        if startsWithChars cs ['t', 'r', 'u', 'e'] then some (.bool true, cs.drop 4) else none
      else if c == 'f' then
        if startsWithChars cs ['f', 'a', 'l', 's', 'e'] then some (.bool false, cs.drop 5) else none
      else if c == '"' then
        (parseStringBody rest).map (fun p => (.str (String.mk p.1), p.2))
      else if c == '-' || c.isDigit then
        (parseJsonNumber cs).map (fun p => (.num p.1, p.2))
      else if c == '[' then
        let inner := skipJsonWs rest
        if inner.head? == some ']' then some (.arr [], inner.tail)
        else (parseArrItems f inner).map (fun p => (.arr p.1, p.2))
      else if c == lbraceChar then
        let inner := skipJsonWs rest
        if inner.head? == some rbraceChar then some (.obj [], inner.tail)
        else (parseObjItems f inner).map (fun p => (.obj (collapsePairs p.1), p.2))
      else none

/-- Parse the comma-separated items of a non-empty JSON array, starting at the
first item, up to and including the closing bracket. -/
def parseArrItems : Nat → List Char → Option (List Json × List Char)
  | 0, _ => none
  | f + 1, cs =>
    match parseJsonValue f cs with
    | none => none
    | some (v, r1) =>
      match skipJsonWs r1 with
      | [] => none
      | c :: r3 =>
        if c == ',' then (parseArrItems f r3).map (fun p => (v :: p.1, p.2))
        else if c == ']' then some ([v], r3)
        else none

/-- Parse the comma-separated members of a non-empty JSON object, starting at
the first key, up to and including the closing bracket. -/
def parseObjItems : Nat → List Char → Option (List (String × Json) × List Char)
  | 0, _ => none
  | f + 1, cs =>
    match skipJsonWs cs with
    | [] => none
    | q :: r0 =>
      if q == '"' then
        match parseStringBody r0 with
        | none => none
        | some (kcs, r1) =>
          match skipJsonWs r1 with
          | [] => none
          | colon :: r2 =>
            if colon == ':' then
              match parseJsonValue f r2 with
              | none => none
              | some (v, r3) =>
                match skipJsonWs r3 with
                | [] => none
                | c :: r5 =>
                  if c == ',' then
                    (parseObjItems f r5).map (fun p => ((String.mk kcs, v) :: p.1, p.2))
                  else if c == rbraceChar then some ([(String.mk kcs, v)], r5)
                  else none
            else none
      else none

end

/-- Model of JSON.parse: parse one value surrounded by whitespace; anything
else (in particular any trailing text) is a SyntaxError, modelled as none. -/
def jsonParse (cs : List Char) : Option Json :=
  match parseJsonValue (2 * cs.length + 8) cs with
  | some (v, rest) => if (skipJsonWs rest).isEmpty then some v else none
  | none => none

/-! ## parseJsonFromGeminiResponse (services/geminiService.ts, lines 54-82) -/

/-- The capture group of the fence regex of parseJsonFromGeminiResponse
matched against the (already trimmed) response text, or none when the regex
does not match.  The regex anchors on a leading and a trailing triple
backtick, greedily consumes an optional json tag and whitespace after the
opening fence, and lazily captures the remainder up to the whitespace
preceding the closing fence. -/
def fenceGroup (cs : List Char) : Option (List Char) :=
  if startsWithChars cs ['`', '`', '`'] then
    let c0 := cs.drop 3
    let c1 := if startsWithChars c0 ['j', 's', 'o', 'n'] then c0.drop 4 else c0
    let c2 := c1.dropWhile isJsWhitespace
    let c3 := if c2.head? == some '\n' then c2.tail else c2
    if startsWithChars c3.reverse ['`', '`', '`'] then
      some (((c3.take (c3.length - 3)).reverse.dropWhile isJsWhitespace).reverse)
    else none
  else none

/-- Step 1 of the parser: if the fence regex matches with a non-empty capture
group, continue with the trimmed group, otherwise keep the input (the source
tests match and match[1], so an empty group is treated as no match). -/
def afterFence (cs : List Char) : List Char :=
  match fenceGroup cs with
  | some g => if g.isEmpty then cs else trimChars g
  | none => cs

/-- Index of the last occurrence of a character. -/
def lastIdxOf (cs : List Char) (c : Char) : Option Nat :=
  (cs.reverse.findIdx? (fun x => x == c)).map (fun k => cs.length - 1 - k)

/-- Step 2 of the parser: slice between the first left curly bracket and the
last right curly bracket when the latter comes strictly later. -/
def braceSlice (cs : List Char) : List Char :=
  match cs.findIdx? (fun x => x == lbraceChar), lastIdxOf cs rbraceChar with
  | some i, some j => if i < j then (cs.take (j + 1)).drop i else cs
  | some _, none => cs
  | none, _ => cs

/-- Does the input start with whitespace followed by a comma?  This is the
lookahead of the repair regex after its leading right curly bracket. -/
def wsCommaAhead (cs : List Char) : Bool :=
  (cs.dropWhile isJsWhitespace).head? == some ','

/-- The repair heuristic: the global regex replacement that collapses a right
curly bracket followed by (captured) whitespace and a comma into just the
whitespace and the comma, scanning left to right without overlap (the
whitespace and comma are kept verbatim, so dropping the bracket and
continuing the scan is the same replacement). -/
def repairBraceComma : List Char → List Char
  | [] => []
  | c :: rest =>
    if c == rbraceChar && wsCommaAhead rest then repairBraceComma rest
    else c :: repairBraceComma rest

/-- Trim, strip a markdown fence, and slice to the outermost braces: the text
handed to JSON.parse by parseJsonFromGeminiResponse. -/
def extractPayload (s : String) : List Char :=
  braceSlice (afterFence (trimChars s.toList))

/-- Model of parseJsonFromGeminiResponse: extract the payload, strictly parse
it, and on failure retry exactly once on the repaired payload; null (none) if
both attempts fail.  Total by construction: every JSON.parse exception is
modelled by the none branch of jsonParse. -/
def parseJsonFromGeminiResponse (s : String) : Option Json :=
  let payload := extractPayload s
  match jsonParse payload with
  | some j => some j
  | none => jsonParse (repairBraceComma payload)

/-! ## Components and preFilterComponents (services/geminiService.ts, 92-132) -/

/-- A catalog entry (types.ts, Componente); only the fields the core logic
reads are modelled.  Prices are exact rationals. -/
structure Componente where
  id : String
  Produto : String
  Preco : ℚ
  Categoria : String
  deriving DecidableEq, Repr

/-- The hard-coded per-category budget share table of preFilterComponents. -/
def budgetDistribution (cat : String) : Option ℚ :=
  if cat == "Processadores" then some 0.20
  else if cat == "Placas de Vídeo" then some 0.35
  else if cat == "Placas-Mãe" then some 0.12
  else if cat == "Memória RAM" then some 0.08
  else if cat == "SSD" then some 0.08
  else if cat == "Fonte" then some 0.07
  else if cat == "Gabinete" then some 0.05
  else if cat == "Cooler" then some 0.05
  else none

/-- The share actually used: the table value with the 0.05 fallback of
budgetDistribution[category] || 0.05 (the fallback also fires on a zero
entry, of which the table has none). -/
def catShare (cat : String) : ℚ :=
  match budgetDistribution cat with
  | some v => if v == 0 then 0.05 else v
  | none => 0.05

/-- The sort comparator: ascending absolute distance of the price from the
target price.  Array.prototype.sort is stable, so the result is the stable
sort by this key, i.e. mergeSort. -/
def distLe (t : ℚ) (a b : Componente) : Bool :=
  decide (|a.Preco - t| ≤ |b.Preco - t|)

/-- One category's candidate list: its components (categoryComponents) ranked
by distance from the target price budget * share, cut to
COMPONENT_COUNT_PER_CATEGORY = 20. -/
def catCandidates (components : List Componente) (budget : ℚ) (cat : String) :
    List Componente :=
  ((components.filter (fun c => c.Categoria == cat)).mergeSort
    (distLe (budget * catShare cat))).take 20

/-- Insertion into the result Map keyed by id: first occurrence wins. -/
def insertById (acc : List Componente) (c : Componente) : List Componente :=
  if acc.any (fun z => z.id == c.id) then acc else acc ++ [c]

/-- topN.forEach over the id-keyed Map. -/
def insertAll (acc : List Componente) (l : List Componente) : List Componente :=
  l.foldl insertById acc

/-- Deduplication in first-occurrence order, as the spread of a JS Set. -/
def jsSetDedup : List String → List String
  | [] => []
  | a :: l => a :: jsSetDedup (l.filter (fun x => !(x == a)))
  termination_by l => l.length
  decreasing_by
    simp only [List.length_cons]
    exact Nat.lt_succ_of_le (List.length_filter_le _ _)

/-- The body of the allCategories.forEach loop: skip an empty category (dead
guard, since every iterated category occurs in the catalog), otherwise insert
the category's candidates into the id-keyed Map. -/
def pfInsertCategory (components : List Componente) (b : ℚ)
    (acc : List Componente) (cat : String) : List Componente :=
  if (components.filter (fun c => c.Categoria == cat)).isEmpty then acc
  else insertAll acc (catCandidates components b cat)

/-- The with-budget branch of preFilterComponents: iterate the categories in
first-occurrence order, inserting each category's candidates into the
id-keyed Map, and return the Map's values in insertion order. -/
def preFilterBudgeted (components : List Componente) (b : ℚ) : List Componente :=
  (jsSetDedup (components.map (fun c => c.Categoria))).foldl
    (pfInsertCategory components b) []

/-- Model of preFilterComponents.  The random shuffle of the no-budget branch
([...components].sort(() => 0.5 - Math.random())) is taken as a parameter,
since its result depends on Math.random and on the engine's sort; the JS
falsy test !budget || budget <= 0 is budget missing, zero or negative. -/
def preFilterComponents (shuffle : List Componente → List Componente)
    (components : List Componente) (budget : Option ℚ) : List Componente :=
  match budget with
  | none =>
    if components.length ≤ 20 * 8 then components else (shuffle components).take (20 * 8)
  | some b =>
    if b ≤ 0 then
      if components.length ≤ 20 * 8 then components else (shuffle components).take (20 * 8)
    else preFilterBudgeted components b

/-! ## JavaScript value semantics used by getLiveBuildResponse -/

/-- JavaScript truthiness of a parsed JSON value. -/
def jsTruthy : Json → Bool
  | .null => false
  | .bool b => b
  | .num q => decide (q ≠ 0)
  | .str s => !s.isEmpty
  | .arr _ => true
  | .obj _ => true

/-- Truthiness of a property read, undefined (none) being falsy. -/
def truthyProp (o : Option Json) : Bool :=
  match o with
  | some v => jsTruthy v
  | none => false

/-- Property read: defined only on objects; reading a named property of a
primitive, an array or null/undefined yields undefined here (the named
properties that matter never live on arrays or primitives in this code). -/
def jsGetProp : Json → String → Option Json
  | .obj kvs, k => (kvs.reverse.find? (fun p => p.1 == k)).map (fun p => p.2)
  | _, _ => none

/-- Property assignment.  On an object it overwrites or appends; on an array
it stores a named property that nothing in the embedded code can observe, so
the array is kept unchanged; on a primitive it is a strict-mode TypeError
(all repository modules are ES modules, hence strict), modelled as none. -/
def jsSetProp : Json → String → Json → Option Json
  | .obj kvs, k, v => some (.obj (objSetValue kvs k v))
  | .arr a, _, _ => some (.arr a)
  | _, _, _ => none

/-- The delete operator on a property; a no-op on non-objects. -/
def jsDelProp : Json → String → Json
  | .obj kvs, k => .obj (kvs.filter (fun p => !(p.1 == k)))
  | j, _ => j

/-! ## Budget normalization (geminiService.ts, lines 232-241) -/

/-- String.prototype.replace with a plain-string pattern replaces only the
first occurrence: the model of .replace(',', '.'). -/
def replaceFirstComma : List Char → List Char
  | [] => []
  | c :: r => if c == ',' then '.' :: r else c :: replaceFirstComma r

/-- The cleaning chain applied to a string budget: remove every dot, turn the
first comma into a dot, then drop every character that is not a digit or a
dot. -/
def cleanOrcamento (s : String) : List Char :=
  (replaceFirstComma (s.toList.filter (fun c => !(c == '.')))).filter
    (fun c => c.isDigit || c == '.')

/-- parseFloat restricted to the digits-and-dots alphabet that cleanOrcamento
produces: value of the longest numeric prefix, none (NaN) when there is no
digit to start with. -/
def parseFloatDigits (cs : List Char) : Option ℚ :=
  let d1 := cs.takeWhile (fun c => c.isDigit)
  let r1 := cs.dropWhile (fun c => c.isDigit)
  match d1, r1 with
  | [], c :: r2 =>
    if c == '.' then
      let d2 := r2.takeWhile (fun c => c.isDigit)
      if d2.isEmpty then none
      else some ((digitsVal d2 : ℚ) / (10 : ℚ) ^ d2.length)
    else none
  | [], [] => none
  | _ :: _, c :: r2 =>
    if c == '.' then
      let d2 := r2.takeWhile (fun c => c.isDigit)
      some ((digitsVal d1 : ℚ) + (digitsVal d2 : ℚ) / (10 : ℚ) ^ d2.length)
    else some (digitsVal d1 : ℚ)
  | _ :: _, [] => some (digitsVal d1 : ℚ)

/-- The orcamento normalization block: when updatedPreferencias.orcamento is
a truthy string, parse its cleaned form; store the number on success, delete
the field on NaN; leave everything else untouched. -/
def normalizeOrcamento (up : Json) : Option Json :=
  match jsGetProp up "orcamento" with
  | some o =>
    if jsTruthy o then
      match o with
      | .str s =>
        match parseFloatDigits (cleanOrcamento s) with
        | some q => jsSetProp up "orcamento" (.num q)
        | none => some (jsDelProp up "orcamento")
      | _ => some up
    else some up
  | none => some up

/-- The defensive re-initialization of a nested sub-record: set it to an
empty object when falsy (none = the strict-mode TypeError on a primitive). -/
def reinitProp (up : Json) (k : String) : Option Json :=
  if truthyProp (jsGetProp up k) then some up else jsSetProp up k (.obj [])

/-! ## Response validation and the turn outcome (geminiService.ts, 225-257) -/

/-- The acceptance test of getLiveBuildResponse: the three required top-level
fields must all be truthy (line 227). -/
def validateLiveBuildResponse (j : Json) : Bool :=
  truthyProp (jsGetProp j "aiResponseText") &&
  truthyProp (jsGetProp j "updatedPreferencias") &&
  truthyProp (jsGetProp j "recommendedComponentIds")

/-- The post-validation mutation of the parsed response: normalize the budget
and re-initialize the two nested sub-records, writing the updated preference
object back; none models the strict-mode TypeError raised when
updatedPreferencias is a truthy primitive. -/
def liveNormalize (j : Json) : Option Json :=
  match jsGetProp j "updatedPreferencias" with
  | none => none
  | some up0 => do
    let up1 ← normalizeOrcamento up0
    let up2 ← reinitProp up1 "perfilPC"
    let up3 ← reinitProp up2 "ambiente"
    jsSetProp j "updatedPreferencias" up3

/-- A parsed response is accepted if it validates and its normalization does
not throw. -/
def acceptedJson (j : Json) : Bool :=
  validateLiveBuildResponse j && (liveNormalize j).isSome

/-- Is the value a JavaScript object (plain object or array)? -/
def isJsObjectLike : Json → Bool
  | .obj _ => true
  | .arr _ => true
  | _ => false

/-- What getLiveBuildResponse does with one raw oracle response text:
return null (invalid), throw (failure, message as thrown) or return the
normalized response (success). -/
inductive LiveOutcome where
  | invalid : LiveOutcome
  | failure (msg : String) : LiveOutcome
  | success (resp : Json) : LiveOutcome
  deriving Repr

/-- The rate-limit message thrown on an HTTP 429 class failure. -/
def rateLimitMessage : String :=
  "Estou recebendo muitas solicitações no momento. Por favor, aguarde alguns instantes antes de tentar novamente."

/-- The generic message thrown on any other failure. -/
def genericErrorMessage : String :=
  "Desculpe, ocorreu um erro ao processar sua solicitação. Por favor, tente novamente."

/-- A JavaScript exception value as the catch block inspects it: the nested
error.error.code field (if any) and its String(error) rendering. -/
structure JSError where
  errorCode : Option Int
  asString : String

/-- The rate-limit test of the catch block: nested code 429, or the string
rendering contains "429". -/
def isRateLimitError (e : JSError) : Bool :=
  e.errorCode == some 429 || containsChars e.asString.toList ['4', '2', '9']

/-- Post-oracle processing of a raw response text.  The strict-mode TypeError
of liveNormalize is caught by the same catch block and surfaces as the
generic message (its engine rendering contains no "429" for the inputs
considered here). -/
def liveProcess (raw : String) : LiveOutcome :=
  match parseJsonFromGeminiResponse raw with
  | none => .invalid
  | some j =>
    if validateLiveBuildResponse j then
      match liveNormalize j with
      | some j2 => .success j2
      | none => .failure genericErrorMessage
    else .invalid

/-- Model of getLiveBuildResponse as a function of the single oracle call's
outcome (the API key is assumed configured; the oracle is invoked exactly
once, with no retry, which the type of this function makes structural). -/
def getLiveBuildResponseModel (oracle : Except JSError String) : LiveOutcome :=
  match oracle with
  | .error e => .failure (if isRateLimitError e then rateLimitMessage else genericErrorMessage)
  | .ok raw => liveProcess raw

/-! ## The client turn (components/build/ChatbotAnamnesis.tsx) -/

/-- What one callLiveBuilder turn leaves behind: the preference state after
the turn, whether the invalid-data notice was added, and the thrown message
the catch displayed, if any. -/
structure TurnView where
  prefs : Json
  invalidNotice : Bool
  thrownNotice : Option String
  deriving Repr

/-- Model of callLiveBuilder: on success the preference state is replaced by
the response's updatedPreferencias object; on a null response the
invalid-data notice is shown; on a thrown error the catch shows its message.
In every non-success case the preference state is left untouched. -/
def callLiveBuilderModel (prefs : Json) (oracle : Except JSError String) : TurnView :=
  match getLiveBuildResponseModel oracle with
  | .failure m => ⟨prefs, false, some m⟩
  | .invalid => ⟨prefs, true, none⟩
  | .success r => ⟨(jsGetProp r "updatedPreferencias").getD .null, false, none⟩

/-! ## The build projector (both ChatbotAnamnesis variants, total price) -/

/-- new Map(availableComponents.map(c => [c.id, c])): on duplicate ids the
later entry wins. -/
def lookupComponent (catalog : List Componente) (s : String) : Option Componente :=
  catalog.reverse.find? (fun c => c.id == s)

/-- recommendedComponentIds mapped through the id Map, dropping ids that do
not resolve (and non-string entries, which a string-keyed Map cannot hit).
A missing field is the || [] of the src/components variant. -/
def resolveRecommended (catalog : List Componente) (resp : Json) : List Componente :=
  match jsGetProp resp "recommendedComponentIds" with
  | some (.arr l) =>
    l.filterMap (fun v => match v with | .str s => lookupComponent catalog s | _ => none)
  | _ => []

/-- reduce((sum, component) => sum + (component.Preco || 0), 0); the || 0
only re-zeroes a zero price, so it is the plain sum here. -/
def sumPrecos (l : List Componente) : ℚ :=
  l.foldl (fun acc c => acc + c.Preco) 0

/-- Total price of the src/components variant:
response.estimatedTotalPrice ?? sum — the declared value is used whenever it
is present and not null, whatever its type. -/
def projectedTotalA (catalog : List Componente) (resp : Json) : Json :=
  match jsGetProp resp "estimatedTotalPrice" with
  | none => .num (sumPrecos (resolveRecommended catalog resp))
  | some .null => .num (sumPrecos (resolveRecommended catalog resp))
  | some v => v

/-- Total price of the codigo/MONTAGEM_DE_PC variant:
typeof response.estimatedTotalPrice === 'number' ? it : sum. -/
def projectedTotalB (catalog : List Componente) (resp : Json) : ℚ :=
  match jsGetProp resp "estimatedTotalPrice" with
  | some (.num n) => n
  | _ => sumPrecos (resolveRecommended catalog resp)

/-! ## Concrete instances used by witnesses and counterexamples -/

/-- A preference state in which the user has already disclosed owned
components. -/
def prevC1 : Json :=
  .obj [("ownedComponents", .str "RTX 3060"), ("perfilPC", .obj []),
        ("ambiente", .obj [])]

/-- A well-formed oracle reply whose updatedPreferencias echoes the budget
and profile but omits the previously set ownedComponents key. -/
def rawC1 : String :=
  "\x7b \"aiResponseText\": \"Ok\", \"updatedPreferencias\": \x7b \"orcamento\": 3000, \"perfilPC\": \x7b \"purpose\": \"Jogos\" \x7d, \"ambiente\": \x7b \x7d \x7d, \"recommendedComponentIds\": [] \x7d"

/-- The normalized response object that liveProcess produces from rawC1. -/
def liveRespC1 : Json :=
  .obj [("aiResponseText", .str "Ok"),
        ("updatedPreferencias",
          .obj [("orcamento", .num 3000),
                ("perfilPC", .obj [("purpose", .str "Jogos")]),
                ("ambiente", .obj [])]),
        ("recommendedComponentIds", .arr [])]

/-- The truncated-reply scenario of the specification. -/
def rawMalformed : String :=
  "Sure, here's your build: \x7b \"aiResponseText\": \"Hi\""

/-- A reply exhibiting the extra-closing-brace-before-comma failure mode that
the repair heuristic fixes. -/
def rawRepairable : String :=
  "\x7b \"a\": \x7b \"b\": 1 \x7d \x7d, \"c\": 2 \x7d"

/-- A three-item catalog with the prices of the price-fallback example. -/
def cat3 : List Componente :=
  [⟨"c1", "CPU X", 899, "Processadores"⟩,
   ⟨"c2", "Mobo Y", 459, "Placas-Mãe"⟩,
   ⟨"c3", "SSD Z", 299, "SSD"⟩]

/-- A response recommending all of cat3 and declaring no total. -/
def respNoTotal : Json :=
  .obj [("recommendedComponentIds", .arr [.str "c1", .str "c2", .str "c3"])]

/-- A response whose declared total is a non-numeric string. -/
def respStrTotal : Json :=
  .obj [("estimatedTotalPrice", .str "a consultar"),
        ("recommendedComponentIds", .arr [.str "c1"])]

/-- A small two-category catalog for the filter witness. -/
def catWitness : List Componente :=
  [⟨"p1", "CPU A", 800, "Processadores"⟩,
   ⟨"p2", "CPU B", 300, "Processadores"⟩,
   ⟨"s1", "SSD A", 250, "SSD"⟩,
   ⟨"s2", "SSD B", 90, "SSD"⟩]

/-- A preference object whose budget is a locale-formatted string. -/
def upLocale : Json := .obj [("orcamento", .str "3.500,75")]

/-- A minimal acceptable response: required fields only, empty id list. -/
def liveReqOnly : Json :=
  .obj [("aiResponseText", .str "Olá"), ("updatedPreferencias", .obj []),
        ("recommendedComponentIds", .arr [])]

/-- A rate-limit exception as the SDK surfaces it. -/
def jsErr429 : JSError := ⟨some 429, "ApiError: 429 RESOURCE_EXHAUSTED"⟩

/-- A generic network failure. -/
def jsErrNet : JSError := ⟨none, "TypeError: Failed to fetch"⟩

/-- A 161-item catalog, one more than the no-budget cap. -/
def K161 : List Componente :=
  (List.range 161).map (fun i => ⟨"c" ++ toString i, "Produto", (i : ℚ), "Categoria"⟩)

/-- The set of component ids of a returned candidate list. -/
def sampleIdSet (l : List Componente) : Finset String :=
  (l.map (fun c => c.id)).toFinset

/-! ## Helper lemmas about the id-keyed insertion fold -/

theorem insertById_grows (acc : List Componente) (c : Componente) :
    acc <+: insertById acc c := by
  unfold insertById
  split
  · exact List.prefix_rfl
  · exact ⟨[c], rfl⟩

theorem mem_insertById_left {x : Componente} (acc : List Componente) (c : Componente)
    (h : x ∈ acc) : x ∈ insertById acc c :=
  (insertById_grows acc c).subset h

theorem mem_insertById {x : Componente} (acc : List Componente) (c : Componente)
    (h : x ∈ insertById acc c) : x ∈ acc ∨ x = c := by
  unfold insertById at h
  split at h
  · exact Or.inl h
  · rcases List.mem_append.mp h with h1 | h1
    · exact Or.inl h1
    · exact Or.inr (List.mem_singleton.mp h1)

theorem mem_insertAll_left {x : Componente} (acc l : List Componente) (h : x ∈ acc) :
    x ∈ insertAll acc l := by
  induction l generalizing acc with
  | nil => exact h
  | cons a t ih =>
    simp only [insertAll, List.foldl_cons]
    exact ih (insertById acc a) (mem_insertById_left acc a h)

theorem mem_insertAll {x : Componente} (acc l : List Componente)
    (h : x ∈ insertAll acc l) : x ∈ acc ∨ x ∈ l := by
  induction l generalizing acc with
  | nil => exact Or.inl h
  | cons a t ih =>
    simp only [insertAll, List.foldl_cons] at h
    rcases ih (insertById acc a) h with h1 | h1
    · rcases mem_insertById acc a h1 with h2 | h2
      · exact Or.inl h2
      · exact Or.inr (h2 ▸ List.mem_cons_self a t)
    · exact Or.inr (List.mem_cons_of_mem a h1)

theorem nodup_ids_insertById (acc : List Componente) (c : Componente)
    (h : (acc.map (fun z => z.id)).Nodup) :
    ((insertById acc c).map (fun z => z.id)).Nodup := by
  unfold insertById
  split
  · exact h
  next hany =>
    rw [List.map_append, List.nodup_append]
    refine ⟨h, List.nodup_singleton _, ?_⟩
    intro a ha hb
    simp only [List.map_cons, List.map_nil, List.mem_singleton] at hb
    subst hb
    rcases List.mem_map.mp ha with ⟨z, hz, hzid⟩
    exact hany (List.any_eq_true.mpr ⟨z, hz, beq_iff_eq.mpr hzid⟩)

theorem nodup_ids_insertAll (acc l : List Componente)
    (h : (acc.map (fun z => z.id)).Nodup) :
    ((insertAll acc l).map (fun z => z.id)).Nodup := by
  induction l generalizing acc with
  | nil => exact h
  | cons a t ih =>
    simp only [insertAll, List.foldl_cons]
    exact ih (insertById acc a) (nodup_ids_insertById acc a h)

theorem mem_catCandidates {x : Componente} (comps : List Componente) (b : ℚ)
    (cat : String) (hx : x ∈ catCandidates comps b cat) :
    x ∈ comps ∧ x.Categoria = cat := by
  unfold catCandidates at hx
  have h1 := List.mem_of_mem_take hx
  have h2 := (List.mergeSort_perm _ _).subset h1
  rcases List.mem_filter.mp h2 with ⟨h3, h4⟩
  exact ⟨h3, beq_iff_eq.mp h4⟩

theorem mem_pfFold {x : Componente} (comps : List Componente) (b : ℚ)
    (cats : List String) (acc : List Componente)
    (h : x ∈ cats.foldl (pfInsertCategory comps b) acc) :
    x ∈ acc ∨ ∃ cat ∈ cats, x ∈ catCandidates comps b cat := by
  induction cats generalizing acc with
  | nil => exact Or.inl h
  | cons c t ih =>
    simp only [List.foldl_cons] at h
    rcases ih (pfInsertCategory comps b acc c) h with h1 | ⟨cat, hc, hx⟩
    · unfold pfInsertCategory at h1
      split at h1
      · exact Or.inl h1
      · rcases mem_insertAll acc _ h1 with h2 | h2
        · exact Or.inl h2
        · exact Or.inr ⟨c, List.mem_cons_self c t, h2⟩
    · exact Or.inr ⟨cat, List.mem_cons_of_mem c hc, hx⟩

theorem nodup_ids_pfFold (comps : List Componente) (b : ℚ) (cats : List String)
    (acc : List Componente) (h : (acc.map (fun z => z.id)).Nodup) :
    ((cats.foldl (pfInsertCategory comps b) acc).map (fun z => z.id)).Nodup := by
  induction cats generalizing acc with
  | nil => exact h
  | cons c t ih =>
    simp only [List.foldl_cons]
    apply ih
    unfold pfInsertCategory
    split
    · exact h
    · exact nodup_ids_insertAll acc _ h

theorem mem_preFilterBudgeted {x : Componente} (comps : List Componente) (b : ℚ)
    (h : x ∈ preFilterBudgeted comps b) :
    x ∈ comps ∧ x ∈ catCandidates comps b x.Categoria := by
  unfold preFilterBudgeted at h
  rcases mem_pfFold comps b _ [] h with h1 | ⟨cat, _, hx⟩
  · cases h1
  · have h2 := mem_catCandidates comps b cat hx
    rw [← h2.2] at hx
    exact ⟨h2.1, hx⟩

theorem preFilterBudgeted_ids_nodup (comps : List Componente) (b : ℚ) :
    ((preFilterBudgeted comps b).map (fun z => z.id)).Nodup := by
  unfold preFilterBudgeted
  exact nodup_ids_pfFold comps b _ [] List.nodup_nil

theorem preFilterBudgeted_category_count (comps : List Componente) (b : ℚ)
    (cat : String) :
    ((preFilterBudgeted comps b).filter (fun c => c.Categoria == cat)).length ≤ 20 := by
  have hsub : ((preFilterBudgeted comps b).filter
      (fun c => c.Categoria == cat)).Sublist (preFilterBudgeted comps b) :=
    List.filter_sublist _
  have hnd : (((preFilterBudgeted comps b).filter
      (fun c => c.Categoria == cat)).map (fun z => z.id)).Nodup :=
    List.Nodup.sublist (List.Sublist.map _ hsub) (preFilterBudgeted_ids_nodup comps b)
  have hsubset : (((preFilterBudgeted comps b).filter
      (fun c => c.Categoria == cat)).map (fun z => z.id)) ⊆
      ((catCandidates comps b cat).map (fun z => z.id)) := by
    intro a ha
    rcases List.mem_map.mp ha with ⟨z, hz, rfl⟩
    rcases List.mem_filter.mp hz with ⟨hz1, hz2⟩
    have h3 := mem_preFilterBudgeted comps b hz1
    have hzc : z.Categoria = cat := beq_iff_eq.mp hz2
    exact List.mem_map_of_mem _ (hzc ▸ h3.2)
  calc ((preFilterBudgeted comps b).filter (fun c => c.Categoria == cat)).length
      = (((preFilterBudgeted comps b).filter
          (fun c => c.Categoria == cat)).map (fun z => z.id)).length :=
        (List.length_map _ _).symm
    _ ≤ ((catCandidates comps b cat).map (fun z => z.id)).length :=
        (hnd.subperm hsubset).length_le
    _ = (catCandidates comps b cat).length := List.length_map _ _
    _ ≤ 20 := List.length_take_le _ _

theorem mem_jsSetDedup_of_mem {x : String} : ∀ {l : List String}, x ∈ l → x ∈ jsSetDedup l := by
  intro l
  induction l using jsSetDedup.induct with
  | case1 => intro hx; cases hx
  | case2 a t ih =>
    intro hx
    simp only [jsSetDedup]
    rcases List.mem_cons.mp hx with rfl | hxl
    · exact List.mem_cons_self _ _
    · by_cases hxa : x = a
      · exact hxa ▸ List.mem_cons_self _ _
      · exact List.mem_cons_of_mem a
          (ih (List.mem_filter.mpr ⟨hxl, by simp [hxa]⟩))

theorem mem_insertAll_of_mem_right (comps : List Componente)
    (hids : (comps.map (fun z => z.id)).Nodup) (l : List Componente) :
    ∀ acc, (∀ z ∈ acc, z ∈ comps) → (∀ z ∈ l, z ∈ comps) →
      ∀ y ∈ l, y ∈ insertAll acc l := by
  induction l with
  | nil => intro acc _ _ y hy; cases hy
  | cons a t ih =>
    intro acc hacc hl y hy
    simp only [insertAll, List.foldl_cons]
    rcases List.mem_cons.mp hy with rfl | hyt
    · have hmem : y ∈ insertById acc y := by
        unfold insertById
        split
        next hany =>
          rcases List.any_eq_true.mp hany with ⟨z, hz, hzid⟩
          have hzy : z = y :=
            List.inj_on_of_nodup_map hids (hacc z hz)
              (hl y (List.mem_cons_self _ _)) (beq_iff_eq.mp hzid)
          exact hzy ▸ hz
        · exact List.mem_append.mpr (Or.inr (List.mem_singleton.mpr rfl))
      exact mem_insertAll_left (insertById acc y) t hmem
    · refine ih (insertById acc a) ?_ (fun z hz => hl z (List.mem_cons_of_mem a hz)) y hyt
      intro z hz
      rcases mem_insertById acc a hz with h | rfl
      · exact hacc z h
      · exact hl z (List.mem_cons_self _ _)

theorem mem_pfFold_left {x : Componente} (comps : List Componente) (b : ℚ)
    (cats : List String) :
    ∀ acc, x ∈ acc → x ∈ cats.foldl (pfInsertCategory comps b) acc := by
  induction cats with
  | nil => intro acc h; exact h
  | cons c t ih =>
    intro acc h
    simp only [List.foldl_cons]
    apply ih
    unfold pfInsertCategory
    split
    · exact h
    · exact mem_insertAll_left acc _ h

theorem mem_pfFold_of_mem_candidates (comps : List Componente) (b : ℚ)
    (hids : (comps.map (fun z => z.id)).Nodup) (cats : List String) :
    ∀ acc, (∀ z ∈ acc, z ∈ comps) → ∀ cat ∈ cats, ∀ y ∈ catCandidates comps b cat,
      y ∈ cats.foldl (pfInsertCategory comps b) acc := by
  induction cats with
  | nil => intro acc _ cat hc; cases hc
  | cons c t ih =>
    intro acc hacc cat hc y hy
    simp only [List.foldl_cons]
    have haccsub : ∀ z ∈ pfInsertCategory comps b acc c, z ∈ comps := by
      intro z hz
      unfold pfInsertCategory at hz
      split at hz
      · exact hacc z hz
      · rcases mem_insertAll acc _ hz with h | h
        · exact hacc z h
        · exact (mem_catCandidates comps b c h).1
    rcases List.mem_cons.mp hc with rfl | hct
    · apply mem_pfFold_left comps b t
      unfold pfInsertCategory
      split
      next hempty =>
        exfalso
        have h1 : y ∈ comps.filter (fun c2 => c2.Categoria == cat) := by
          have h2 := List.mem_of_mem_take (by unfold catCandidates at hy; exact hy)
          exact (List.mergeSort_perm _ _).subset h2
        rw [List.isEmpty_iff] at hempty
        rw [hempty] at h1
        cases h1
      · exact mem_insertAll_of_mem_right comps hids _ acc hacc
          (fun z hz => (mem_catCandidates comps b cat hz).1) y hy
    · exact ih (pfInsertCategory comps b acc c) haccsub cat hct y hy

theorem mem_preFilterBudgeted_of_mem_candidates {y : Componente}
    (comps : List Componente) (b : ℚ)
    (hids : (comps.map (fun z => z.id)).Nodup) (cat : String)
    (hy : y ∈ catCandidates comps b cat) : y ∈ preFilterBudgeted comps b := by
  have h1 := mem_catCandidates comps b cat hy
  have hmemcat : cat ∈ jsSetDedup (comps.map (fun c => c.Categoria)) := by
    apply mem_jsSetDedup_of_mem
    rw [← h1.2]
    exact List.mem_map_of_mem _ h1.1
  unfold preFilterBudgeted
  exact mem_pfFold_of_mem_candidates comps b hids _ [] (by intro z hz; cases hz)
    cat hmemcat y hy

theorem distLe_trans (t : ℚ) : ∀ a b c : Componente,
    distLe t a b = true → distLe t b c = true → distLe t a c = true := by
  intro a b c h1 h2
  simp only [distLe, decide_eq_true_eq] at h1 h2 ⊢
  exact le_trans h1 h2

theorem distLe_total (t : ℚ) : ∀ a b : Componente,
    (distLe t a b || distLe t b a) = true := by
  intro a b
  simp only [distLe, Bool.or_eq_true, decide_eq_true_eq]
  exact le_total _ _

theorem catCandidates_closest (comps : List Componente) (b : ℚ) (cat : String)
    (x y : Componente) (hx : x ∈ catCandidates comps b cat)
    (hy : y ∈ comps) (hyc : y.Categoria = cat)
    (hyn : y ∉ catCandidates comps b cat) :
    |x.Preco - b * catShare cat| ≤ |y.Preco - b * catShare cat| := by
  have hsorted : ((comps.filter (fun c => c.Categoria == cat)).mergeSort
      (distLe (b * catShare cat))).Pairwise
      (fun a c => distLe (b * catShare cat) a c = true) :=
    List.sorted_mergeSort (distLe_trans _) (distLe_total _) _
  have hys : y ∈ (comps.filter (fun c => c.Categoria == cat)).mergeSort
      (distLe (b * catShare cat)) := by
    rw [(List.mergeSort_perm _ _).mem_iff]
    exact List.mem_filter.mpr ⟨hy, beq_iff_eq.mpr hyc⟩
  have hx20 : x ∈ ((comps.filter (fun c => c.Categoria == cat)).mergeSort
      (distLe (b * catShare cat))).take 20 := by
    unfold catCandidates at hx
    exact hx
  have hyn20 : y ∉ ((comps.filter (fun c => c.Categoria == cat)).mergeSort
      (distLe (b * catShare cat))).take 20 := by
    unfold catCandidates at hyn
    exact hyn
  have hyd : y ∈ ((comps.filter (fun c => c.Categoria == cat)).mergeSort
      (distLe (b * catShare cat))).drop 20 := by
    have hsplit := List.take_append_drop 20
      ((comps.filter (fun c => c.Categoria == cat)).mergeSort
        (distLe (b * catShare cat)))
    rw [← hsplit] at hys
    rcases List.mem_append.mp hys with h | h
    · exact absurd h hyn20
    · exact h
  have hAll : (((comps.filter (fun c => c.Categoria == cat)).mergeSort
        (distLe (b * catShare cat))).take 20 ++
      ((comps.filter (fun c => c.Categoria == cat)).mergeSort
        (distLe (b * catShare cat))).drop 20).Pairwise
      (fun a c => distLe (b * catShare cat) a c = true) := by
    rw [List.take_append_drop]
    exact hsorted
  have hpw := List.pairwise_append.mp hAll
  have := hpw.2.2 x hx20 y hyd
  simpa only [distLe, decide_eq_true_eq] using this

/-! ## Small bridging lemmas for the turn pipeline -/

theorem jsGetProp_delProp_self (kvs : List (String × Json)) (k : String) :
    jsGetProp (jsDelProp (.obj kvs) k) k = none := by
  simp only [jsDelProp, jsGetProp]
  have hfind : ((kvs.filter (fun p => !(p.1 == k))).reverse.find?
      (fun p => p.1 == k)) = none := by
    rw [List.find?_eq_none]
    intro x hx
    rcases List.mem_filter.mp (List.mem_reverse.mp hx) with ⟨_, hpx⟩
    simp only [Bool.not_eq_true'] at hpx
    simp [hpx]
  rw [hfind]
  rfl

theorem normalizeOrcamento_obj (kvs : List (String × Json)) :
    ∃ kvs2, normalizeOrcamento (.obj kvs) = some (.obj kvs2) := by
  unfold normalizeOrcamento
  cases h : jsGetProp (.obj kvs) "orcamento" with
  | none => exact ⟨kvs, rfl⟩
  | some o =>
    cases hto : jsTruthy o with
    | false => exact ⟨kvs, by simp [hto]⟩
    | true =>
      cases o with
      | str s =>
        cases hp : parseFloatDigits (cleanOrcamento s) with
        | some q =>
          exact ⟨objSetValue kvs "orcamento" (.num q), by simp [hto, hp, jsSetProp]⟩
        | none =>
          exact ⟨kvs.filter (fun p => !(p.1 == "orcamento")), by simp [hto, hp, jsDelProp]⟩
      | null => exact ⟨kvs, by simp [hto]⟩
      | bool b => exact ⟨kvs, by simp [hto]⟩
      | num q => exact ⟨kvs, by simp [hto]⟩
      | arr a => exact ⟨kvs, by simp [hto]⟩
      | obj o2 => exact ⟨kvs, by simp [hto]⟩

theorem reinitProp_obj (kvs : List (String × Json)) (k : String) :
    ∃ kvs2, reinitProp (.obj kvs) k = some (.obj kvs2) := by
  unfold reinitProp
  cases h : truthyProp (jsGetProp (.obj kvs) k) with
  | true => exact ⟨kvs, by simp⟩
  | false => exact ⟨objSetValue kvs k (.obj []), by simp [jsSetProp]⟩

theorem liveNormalize_isSome_iff (j up : Json)
    (hup : jsGetProp j "updatedPreferencias" = some up) :
    (liveNormalize j).isSome = true ↔ isJsObjectLike up = true := by
  obtain ⟨kvs, rfl⟩ : ∃ kvs, j = .obj kvs := by
    cases j <;> first | exact ⟨_, rfl⟩ | simp [jsGetProp] at hup
  unfold liveNormalize
  rw [hup]
  cases up with
  | obj ukvs =>
    obtain ⟨k2, h2⟩ := normalizeOrcamento_obj ukvs
    obtain ⟨k3, h3⟩ := reinitProp_obj k2 "perfilPC"
    obtain ⟨k4, h4⟩ := reinitProp_obj k3 "ambiente"
    simp [h2, h3, h4, jsSetProp, isJsObjectLike]
  | arr a =>
    simp [normalizeOrcamento, reinitProp, jsGetProp, truthyProp, jsSetProp, isJsObjectLike]
  | null =>
    simp [normalizeOrcamento, reinitProp, jsGetProp, truthyProp, jsSetProp, isJsObjectLike]
  | bool b =>
    simp [normalizeOrcamento, reinitProp, jsGetProp, truthyProp, jsSetProp, isJsObjectLike]
  | num q =>
    simp [normalizeOrcamento, reinitProp, jsGetProp, truthyProp, jsSetProp, isJsObjectLike]
  | str s =>
    simp [normalizeOrcamento, reinitProp, jsGetProp, truthyProp, jsSetProp, isJsObjectLike]

/-! ## Claim theorems -/

/-- C1 (amended): the per-turn update of the Preference Record is a wholesale
replacement, not a per-key merge: after any successful turn the record equals
the response's updatedPreferencias object (as normalized by the service),
independently of the record held before the turn.  Keys the model omits are
therefore dropped unless the model echoes them. -/
theorem turn_replaces_preferences_wholesale (prev1 prev2 : Json) (raw : String)
    (r : Json) (h : liveProcess raw = .success r) :
    (callLiveBuilderModel prev1 (.ok raw)).prefs =
      (callLiveBuilderModel prev2 (.ok raw)).prefs ∧
    (callLiveBuilderModel prev1 (.ok raw)).prefs =
      (jsGetProp r "updatedPreferencias").getD .null := by
  simp [callLiveBuilderModel, getLiveBuildResponseModel, h]

/-- Witness for C1's amended theorem at a concrete turn. -/
theorem turn_replaces_preferences_wholesale_witness :
    (callLiveBuilderModel prevC1 (.ok rawC1)).prefs =
      (callLiveBuilderModel (Json.obj []) (.ok rawC1)).prefs :=
  (turn_replaces_preferences_wholesale prevC1 (Json.obj []) rawC1 liveRespC1
    (by with_unfolding_all rfl)).1

/-- C1 counterexample: ownedComponents is set before the turn, the turn
succeeds, the response's preference object carries no overwrite for the key
(empty or otherwise), and after the merge the key is gone — refuting merge
monotonicity as claimed. -/
theorem preference_key_dropped :
    jsGetProp prevC1 "ownedComponents" = some (.str "RTX 3060") ∧
    liveProcess rawC1 = .success liveRespC1 ∧
    jsGetProp ((jsGetProp liveRespC1 "updatedPreferencias").getD .null)
      "ownedComponents" = none ∧
    jsGetProp ((callLiveBuilderModel prevC1 (.ok rawC1)).prefs)
      "ownedComponents" = none :=
  ⟨rfl, by with_unfolding_all rfl, rfl, by with_unfolding_all rfl⟩

/-- C2: the response parser is total — it is an Option-valued function, every
JSON.parse failure being modelled as none — and on the specification's
enumerated inputs (empty string, non-JSON prose, fenced JSON, JSON surrounded
by prose, truncated JSON, and the extra-closing-brace-before-comma
malformation) it returns exactly the parsed object or null. -/
theorem parseJsonFromGeminiResponse_total :
    (∀ s : String, parseJsonFromGeminiResponse s = none ∨
      ∃ j, parseJsonFromGeminiResponse s = some j) ∧
    parseJsonFromGeminiResponse "" = none ∧
    parseJsonFromGeminiResponse "Desculpe, nao consegui montar a build." = none ∧
    parseJsonFromGeminiResponse "```json\n\x7b \"ok\": true \x7d\n```" =
      some (.obj [("ok", .bool true)]) ∧
    parseJsonFromGeminiResponse "Claro! \x7b \"a\": 1 \x7d Espero que ajude." =
      some (.obj [("a", .num 1)]) ∧
    parseJsonFromGeminiResponse rawMalformed = none ∧
    parseJsonFromGeminiResponse rawRepairable =
      some (.obj [("a", .obj [("b", .num 1)]), ("c", .num 2)]) := by
  refine ⟨?_, rfl, rfl, rfl, by with_unfolding_all rfl, rfl,
    by with_unfolding_all rfl⟩
  intro s
  cases h : parseJsonFromGeminiResponse s with
  | none => exact Or.inl rfl
  | some j => exact Or.inr ⟨j, rfl⟩

/-- C3: a turn is a protocol violation exactly when the parser returns null
or a required top-level field fails validation, and on every such turn the
client surfaces the invalid-data notice and leaves the Preference Record
exactly as it was. -/
theorem invalid_response_leaves_preferences (prefs : Json) (raw : String) :
    (liveProcess raw = .invalid ↔
      parseJsonFromGeminiResponse raw = none ∨
      ∃ j, parseJsonFromGeminiResponse raw = some j ∧
        validateLiveBuildResponse j = false) ∧
    (liveProcess raw = .invalid →
      (callLiveBuilderModel prefs (.ok raw)).prefs = prefs ∧
      (callLiveBuilderModel prefs (.ok raw)).invalidNotice = true) := by
  constructor
  · constructor
    · intro h
      cases hp : parseJsonFromGeminiResponse raw with
      | none => exact Or.inl rfl
      | some j =>
        refine Or.inr ⟨j, rfl, ?_⟩
        by_cases hv : validateLiveBuildResponse j = true
        · exfalso
          simp only [liveProcess, hp, hv, if_true] at h
          cases hn : liveNormalize j with
          | none => simp only [hn] at h; exact LiveOutcome.noConfusion h
          | some j2 => simp only [hn] at h; exact LiveOutcome.noConfusion h
        · exact Bool.eq_false_iff.mpr hv
    · intro h
      rcases h with h | ⟨j, hj, hv⟩
      · simp [liveProcess, h]
      · simp [liveProcess, hj, hv]
  · intro h
    simp [callLiveBuilderModel, getLiveBuildResponseModel, h]

/-- Witness for C3 at the specification's truncated-reply scenario. -/
theorem invalid_response_leaves_preferences_witness :
    (callLiveBuilderModel prevC1 (.ok rawMalformed)).prefs = prevC1 ∧
    (callLiveBuilderModel prevC1 (.ok rawMalformed)).invalidNotice = true :=
  (invalid_response_leaves_preferences prevC1 rawMalformed).2 (by rfl)

/-- C4: with a positive budget, preFilterComponents works per category with
target price budget * share (share from the distribution table, 0.05
fallback), keeps at most 20 components per category, returns only catalog
components with no duplicate identifiers, and — whenever catalog ids are
unique — every kept component of a category is at least as close to that
category's target price as every component of the category it left out;
a budget that is zero or negative is treated exactly as no budget.  (A
category absent from the catalog is never iterated, so it is skipped without
error by construction.) -/
theorem preFilterComponents_budget_behavior
    (shuffle : List Componente → List Componente)
    (comps : List Componente) (b : ℚ) :
    (0 < b →
      ((preFilterComponents shuffle comps (some b)).map (fun z => z.id)).Nodup ∧
      (∀ cat, ((preFilterComponents shuffle comps (some b)).filter
          (fun c => c.Categoria == cat)).length ≤ 20) ∧
      (∀ x ∈ preFilterComponents shuffle comps (some b), x ∈ comps) ∧
      ((comps.map (fun z => z.id)).Nodup →
        ∀ x ∈ preFilterComponents shuffle comps (some b), ∀ y ∈ comps,
          y.Categoria = x.Categoria →
          y ∉ preFilterComponents shuffle comps (some b) →
          |x.Preco - b * catShare x.Categoria| ≤
            |y.Preco - b * catShare x.Categoria|)) ∧
    (b ≤ 0 →
      preFilterComponents shuffle comps (some b) =
        preFilterComponents shuffle comps none) := by
  constructor
  · intro hb
    have hpf : preFilterComponents shuffle comps (some b) = preFilterBudgeted comps b := by
      simp only [preFilterComponents]
      rw [if_neg (not_le.mpr hb)]
    rw [hpf]
    refine ⟨preFilterBudgeted_ids_nodup comps b,
      fun cat => preFilterBudgeted_category_count comps b cat,
      fun x hx => (mem_preFilterBudgeted comps b hx).1, ?_⟩
    intro hids x hx y hy hyc hyn
    have hxc := (mem_preFilterBudgeted comps b hx).2
    have hync : y ∉ catCandidates comps b x.Categoria := fun hyin =>
      hyn (mem_preFilterBudgeted_of_mem_candidates comps b hids x.Categoria hyin)
    exact catCandidates_closest comps b x.Categoria x y hxc hy hyc hync
  · intro hb
    simp only [preFilterComponents]
    rw [if_pos hb]

/-- Witness for C4 on a concrete catalog and budget. -/
theorem preFilterComponents_budget_behavior_witness :
    ((preFilterComponents id catWitness (some 1000)).map (fun z => z.id)).Nodup ∧
    ((preFilterComponents id catWitness (some 1000)).filter
      (fun c => c.Categoria == "SSD")).length ≤ 20 :=
  ⟨((preFilterComponents_budget_behavior id catWitness 1000).1 (by norm_num)).1,
   ((preFilterComponents_budget_behavior id catWitness 1000).1 (by norm_num)).2.1 "SSD"⟩

/-- C5 (amended): with no budget the filter returns the catalog unchanged
when it has at most 160 items, and otherwise the first 160 elements of the
randomly re-shuffled copy — a sample of exactly 160 catalog items re-drawn on
each call, but with no uniformity guarantee. -/
theorem preFilterComponents_no_budget_sampling
    (shuffle : List Componente → List Componente) (comps : List Componente) :
    (comps.length ≤ 160 → preFilterComponents shuffle comps none = comps) ∧
    (160 < comps.length →
      preFilterComponents shuffle comps none = (shuffle comps).take 160) ∧
    ((shuffle comps).Perm comps → 160 < comps.length →
      (preFilterComponents shuffle comps none).length = 160 ∧
      ∀ x ∈ preFilterComponents shuffle comps none, x ∈ comps) := by
  have hcap : (20 * 8 : ℕ) = 160 := by norm_num
  refine ⟨?_, ?_, ?_⟩
  · intro h
    simp only [preFilterComponents]
    rw [if_pos (by omega)]
  · intro h
    simp only [preFilterComponents]
    rw [if_neg (by omega)]
  · intro hperm h
    have heq : preFilterComponents shuffle comps none = (shuffle comps).take 160 := by
      simp only [preFilterComponents]
      rw [if_neg (by omega)]
    rw [heq]
    constructor
    · rw [List.length_take]
      have := hperm.length_eq
      omega
    · intro x hx
      exact hperm.subset (List.mem_of_mem_take hx)

/-- Witness for C5's amended theorem: the identity shuffle on the 161-item
catalog yields a 160-item sample drawn from the catalog. -/
theorem preFilterComponents_no_budget_sampling_witness :
    (preFilterComponents id K161 none).length = 160 :=
  ((preFilterComponents_no_budget_sampling id K161).2.2 (List.Perm.refl _)
    (by decide)).1

/-- C5 counterexample: the no-budget sample cannot be uniform.  The shuffle
is [...components].sort(comparator) with comparator () => 0.5 - Math.random():
the engine's sort consults the comparator finitely many times and only its
sign matters, so on any fixed input the produced order is a function of
finitely many independent fair coin flips (sign of 0.5 - r).  For the
161-item catalog K161 the uniform-sampling claim would give every 160-item
id-set probability 1/161, i.e. (number of coin-flip outcomes mapping to it)
* 161 = 2 ^ d, forcing 7 to divide a power of two — impossible.  Hence no
shuffle scheme of this shape makes preFilterComponents return a uniform
160-item sample. -/
theorem no_budget_sampling_not_uniform :
    ¬ ∃ (d : ℕ) (f : (Fin d → Bool) → List Componente),
      (∀ x, (f x).Perm K161) ∧
      (∀ s : Finset String, s ⊆ sampleIdSet K161 → s.card = 160 →
        (Finset.univ.filter
          (fun x => sampleIdSet (preFilterComponents (fun _ => f x) K161 none) = s)).card
          * 161 = 2 ^ d) := by
  rintro ⟨d, f, hperm, huni⟩
  have hsub : sampleIdSet (K161.take 160) ⊆ sampleIdSet K161 := by
    intro a ha
    simp only [sampleIdSet, List.mem_toFinset] at ha ⊢
    exact (List.Sublist.map _ (List.take_sublist _ _)).subset ha
  have hnodup : ((K161.take 160).map (fun c => c.id)).Nodup := by decide
  have hcard : (sampleIdSet (K161.take 160)).card = 160 := by
    rw [sampleIdSet, List.toFinset_card_of_nodup hnodup]
    decide
  have h3 := huni _ hsub hcard
  have h7 : (7 : ℕ) ∣ 2 ^ d := by
    rw [← h3]
    exact Dvd.dvd.mul_left (by norm_num) _
  have h8 := Nat.Prime.dvd_of_dvd_pow (by norm_num : Nat.Prime 7) h7
  omega

/-- C6 (amended): the codigo variant of the projector uses the model-declared
total exactly when it is a number and otherwise sums the resolved components'
prices; the src/components variant, built on the nullish-coalescing operator,
falls back to the sum only when the declared total is absent or null and
passes any other declared value through unchanged — even a non-numeric
one. -/
theorem projected_total_price (catalog : List Componente) (resp : Json) :
    (∀ n : ℚ, jsGetProp resp "estimatedTotalPrice" = some (.num n) →
      projectedTotalB catalog resp = n ∧ projectedTotalA catalog resp = .num n) ∧
    ((jsGetProp resp "estimatedTotalPrice" = none ∨
        jsGetProp resp "estimatedTotalPrice" = some .null) →
      projectedTotalA catalog resp =
        .num (sumPrecos (resolveRecommended catalog resp)) ∧
      projectedTotalB catalog resp = sumPrecos (resolveRecommended catalog resp)) ∧
    (∀ v, jsGetProp resp "estimatedTotalPrice" = some v →
      (∀ n : ℚ, v ≠ .num n) → v ≠ .null →
      projectedTotalA catalog resp = v ∧
      projectedTotalB catalog resp = sumPrecos (resolveRecommended catalog resp)) := by
  refine ⟨?_, ?_, ?_⟩
  · intro n h
    exact ⟨by simp [projectedTotalB, h], by simp [projectedTotalA, h]⟩
  · rintro (h | h)
    · exact ⟨by simp [projectedTotalA, h], by simp [projectedTotalB, h]⟩
    · exact ⟨by simp [projectedTotalA, h], by simp [projectedTotalB, h]⟩
  · intro v hv hnum hnull
    constructor
    · cases v with
      | null => exact absurd rfl hnull
      | bool b => simp [projectedTotalA, hv]
      | num n => simp [projectedTotalA, hv]
      | str s => simp [projectedTotalA, hv]
      | arr a => simp [projectedTotalA, hv]
      | obj o => simp [projectedTotalA, hv]
    · cases v with
      | null => simp [projectedTotalB, hv]
      | bool b => simp [projectedTotalB, hv]
      | num n => exact absurd rfl (hnum n)
      | str s => simp [projectedTotalB, hv]
      | arr a => simp [projectedTotalB, hv]
      | obj o => simp [projectedTotalB, hv]

/-- Witness for C6 at the specification's example prices: no declared total,
components priced 899, 459 and 299, total 1657 in both variants. -/
theorem projected_total_price_witness :
    projectedTotalA cat3 respNoTotal = .num 1657 ∧
    projectedTotalB cat3 respNoTotal = 1657 := by
  have h := (projected_total_price cat3 respNoTotal).2.1 (Or.inl (by rfl))
  exact ⟨h.1.trans (by with_unfolding_all rfl), h.2.trans (by with_unfolding_all rfl)⟩

/-- C6 counterexample: with a declared total that is a present but
non-numeric string, the src/components variant stores that string as the
build total instead of the sum of the resolved prices (899), contradicting
the claim that a non-numeric declared total falls back to the sum. -/
theorem declared_total_passthrough :
    projectedTotalA cat3 respStrTotal = .str "a consultar" ∧
    sumPrecos (resolveRecommended cat3 respStrTotal) = 899 ∧
    ∀ q : ℚ, Json.str "a consultar" ≠ Json.num q :=
  ⟨rfl, by with_unfolding_all rfl, fun q h => Json.noConfusion h⟩

/-- C7: a failed oracle call throws the dedicated rate-limit message exactly
when the catch block classifies the exception as HTTP 429 (nested code 429 or
a "429" in its string rendering) and the generic retry message otherwise; the
two messages differ, and the model consumes a single oracle outcome, so no
retry happens inside the call. -/
theorem rate_limit_error_distinction (e : JSError) :
    (isRateLimitError e = true →
      getLiveBuildResponseModel (.error e) = .failure rateLimitMessage) ∧
    (isRateLimitError e = false →
      getLiveBuildResponseModel (.error e) = .failure genericErrorMessage) ∧
    rateLimitMessage ≠ genericErrorMessage := by
  refine ⟨fun h => by simp [getLiveBuildResponseModel, h],
    fun h => by simp [getLiveBuildResponseModel, h], by decide⟩

/-- Witness for C7: a code-429 exception gets the rate-limit message, a
generic network failure gets the generic one. -/
theorem rate_limit_error_distinction_witness :
    getLiveBuildResponseModel (.error jsErr429) = .failure rateLimitMessage ∧
    getLiveBuildResponseModel (.error jsErrNet) = .failure genericErrorMessage :=
  ⟨(rate_limit_error_distinction jsErr429).1 (by decide),
   (rate_limit_error_distinction jsErrNet).2.1 (by decide)⟩

/-- C8: whenever the strict parse of the extracted payload fails, the parser
performs exactly one repair (the brace-comma collapse) and exactly one retry:
its result is the strict parse of the repaired payload, null when that fails
too. -/
theorem repair_applied_once (s : String)
    (h : jsonParse (extractPayload s) = none) :
    parseJsonFromGeminiResponse s =
      jsonParse (repairBraceComma (extractPayload s)) := by
  simp only [parseJsonFromGeminiResponse, h]

/-- Witness for C8 on the extra-closing-brace malformation: the strict parse
fails, the repaired payload parses, and the parser returns its value. -/
theorem repair_applied_once_witness :
    parseJsonFromGeminiResponse rawRepairable =
      jsonParse (repairBraceComma (extractPayload rawRepairable)) ∧
    parseJsonFromGeminiResponse rawRepairable =
      some (.obj [("a", .obj [("b", .num 1)]), ("c", .num 2)]) :=
  ⟨repair_applied_once rawRepairable (by with_unfolding_all rfl),
   (repair_applied_once rawRepairable (by with_unfolding_all rfl)).trans
     (by with_unfolding_all rfl)⟩

/-- C9: when the parsed response's budget field is a truthy (non-empty)
string, the engine parses its cleaned locale form: on success the field is
replaced by the number, and on failure the field is deleted from the merged
preferences (so no corrupt value is stored). -/
theorem budget_string_normalization (up : Json) (s : String)
    (hfield : jsGetProp up "orcamento" = some (.str s)) (hne : s ≠ "") :
    (∀ q : ℚ, parseFloatDigits (cleanOrcamento s) = some q →
      normalizeOrcamento up = jsSetProp up "orcamento" (.num q)) ∧
    (parseFloatDigits (cleanOrcamento s) = none →
      normalizeOrcamento up = some (jsDelProp up "orcamento") ∧
      jsGetProp (jsDelProp up "orcamento") "orcamento" = none) := by
  have hie : s.isEmpty = false := by
    rw [Bool.eq_false_iff]
    intro hc
    exact hne ((String.isEmpty_iff s).mp hc)
  have htruthy : jsTruthy (.str s) = true := by simp [jsTruthy, hie]
  obtain ⟨kvs, rfl⟩ : ∃ kvs, up = Json.obj kvs := by
    cases up <;> first | exact ⟨_, rfl⟩ | simp [jsGetProp] at hfield
  constructor
  · intro q hq
    simp [normalizeOrcamento, hfield, htruthy, hq]
  · intro hq
    exact ⟨by simp [normalizeOrcamento, hfield, htruthy, hq],
      jsGetProp_delProp_self kvs "orcamento"⟩

/-- Witness for C9: the locale string "3.500,75" becomes the number 3500.75
(= 14003/4). -/
theorem budget_string_normalization_witness :
    normalizeOrcamento upLocale =
      some (.obj [("orcamento", .num (14003 / 4 : ℚ))]) := by
  have h := (budget_string_normalization upLocale "3.500,75" rfl (by decide)).1
    (14003 / 4 : ℚ) (by with_unfolding_all rfl)
  exact h.trans (by with_unfolding_all rfl)

/-- C10: a parsed oracle response is accepted — getLiveBuildResponse reaches
its success path instead of returning null — exactly when the reply text and
the recommended-component-ids field are present and truthy and the
updated-preferences field holds a JavaScript object (a truthy primitive there
is never accepted: the sub-record re-initialization then throws).  The
justification and estimated total price play no role, and an empty
recommended-ids array is accepted, as liveReqOnly shows; the full pipeline
returns a response exactly when the parsed text passes this test. -/
theorem accepted_iff_required_fields (j : Json) :
    (acceptedJson j = true ↔
      truthyProp (jsGetProp j "aiResponseText") = true ∧
      (∃ up, jsGetProp j "updatedPreferencias" = some up ∧ jsTruthy up = true ∧
        isJsObjectLike up = true) ∧
      truthyProp (jsGetProp j "recommendedComponentIds") = true) ∧
    acceptedJson liveReqOnly = true ∧
    (∀ raw j0, parseJsonFromGeminiResponse raw = some j0 →
      ((∃ r, liveProcess raw = .success r) ↔ acceptedJson j0 = true)) := by
  refine ⟨?_, rfl, ?_⟩
  · constructor
    · intro h
      unfold acceptedJson at h
      rw [Bool.and_eq_true] at h
      obtain ⟨hval, hsome⟩ := h
      have hval2 := hval
      unfold validateLiveBuildResponse at hval2
      rw [Bool.and_eq_true, Bool.and_eq_true] at hval2
      obtain ⟨⟨h1, h2⟩, h3⟩ := hval2
      cases hup : jsGetProp j "updatedPreferencias" with
      | none => rw [hup] at h2; simp [truthyProp] at h2
      | some up =>
        rw [hup] at h2
        have hobj : isJsObjectLike up = true :=
          (liveNormalize_isSome_iff j up hup).mp hsome
        exact ⟨h1, ⟨up, rfl, by simpa [truthyProp] using h2, hobj⟩, h3⟩
    · rintro ⟨h1, ⟨up, hup, htr, hobj⟩, h3⟩
      unfold acceptedJson
      rw [Bool.and_eq_true]
      constructor
      · unfold validateLiveBuildResponse
        rw [Bool.and_eq_true, Bool.and_eq_true]
        exact ⟨⟨h1, by simp [hup, truthyProp, htr]⟩, h3⟩
      · exact (liveNormalize_isSome_iff j up hup).mpr hobj
  · intro raw j0 hp
    constructor
    · rintro ⟨r, hr⟩
      simp only [liveProcess, hp] at hr
      by_cases hv : validateLiveBuildResponse j0 = true
      · rw [if_pos hv] at hr
        cases hn : liveNormalize j0 with
        | none => rw [hn] at hr; exact absurd hr (by simp)
        | some j2 =>
          unfold acceptedJson
          rw [Bool.and_eq_true]
          exact ⟨hv, by simp [hn]⟩
      · rw [if_neg hv] at hr
        exact absurd hr (by simp)
    · intro ha
      unfold acceptedJson at ha
      rw [Bool.and_eq_true] at ha
      obtain ⟨hval, hsome⟩ := ha
      simp only [liveProcess, hp, hval, if_true]
      cases hn : liveNormalize j0 with
      | none => rw [hn] at hsome; simp at hsome
      | some j2 => exact ⟨j2, by simp [hn]⟩

/-- Witness for C10: the concrete well-formed reply rawC1 parses to
liveRespC1 and is accepted by the pipeline. -/
theorem accepted_iff_required_fields_witness :
    ∃ r, liveProcess rawC1 = .success r :=
  ((accepted_iff_required_fields liveRespC1).2.2 rawC1 liveRespC1
    (by with_unfolding_all rfl)).mpr (by with_unfolding_all rfl)
